import Mathlib

/-!
Verification of the quiz-generation core of the JP Grammar API (`api.py`).

The Python source is shallowly embedded: Pydantic models become structures,
optional string fields become `Option String`, Python truthiness is modelled
explicitly, and the regex-based masking (`re.sub` with an escaped, hence
literal, pattern) is modelled as literal substring replacement on character
lists.  Randomness (`random.sample`, `random.shuffle`, `random.choice`) is
modelled by oracle functions; theorems quantify over every oracle satisfying
the documented contract of the corresponding Python primitive (a sample of
size `k` is a permutation of a size-`k` sub-multiset drawn from distinct
positions, a shuffle is a permutation).
-/

/-- `GrammarPoint` model from `api.py`. -/
structure GrammarPoint where
  id : String
  level_code : String
  title : String
  pattern : Option String
  meaning_es : Option String
  meaning_en : Option String
  notes : Option String
  tags : List String
  source : Option String
  published : Option Bool
deriving DecidableEq

/-- `Example` model from `api.py` (all fields optional). -/
structure Example where
  id : Option String
  grammar_id : Option String
  level_code : Option String
  title : Option String
  pattern : Option String
  jp : Option String
  es : Option String
  en : Option String
  hint : Option String
deriving DecidableEq

/-- `QuizQuestion` model from `api.py`.  `meta` (a `Dict[str, Any]` holding
only string-or-None values in the builders) is modelled as an association
list of optional strings. -/
structure QuizQuestion where
  id : String
  type : String
  prompt : String
  jp : Option String
  choices : List String
  answer_idx : Nat
  meta : List (String × Option String)
deriving DecidableEq

/-- Python truthiness of an `Optional[str]`: `None` and `""` are falsy. -/
def truthyO (o : Option String) : Bool := o.getD "" != ""

/-- Python `a or b` where `a : Optional[str]` and `b : str`. -/
def pyOrO (a : Option String) (b : String) : String :=
  match a with
  | some s => if s == "" then b else s
  | none => b

/-- Python `a or b` on two strings. -/
def pyOrS (a b : String) : String := if a == "" then b else a

/-- Characters stripped by Python `str.strip()` (the whitespace actually
occurring in this data: ASCII whitespace plus the ideographic space). -/
def isPySpace (c : Char) : Bool :=
  c == ' ' || c == '\t' || c == '\n' || c == '\r' ||
  c.toNat == 0x0B || c.toNat == 0x0C || c.toNat == 0x3000

/-- Python `str.strip()`. -/
def pyStrip (s : String) : String :=
  ⟨((s.data.dropWhile isPySpace).reverse.dropWhile isPySpace).reverse⟩

/-- `_sample(seq, k)` from `api.py`, with `random.sample` supplied as the
oracle `pick` (`pick s m` is the list `random.sample(s, m)` returned for
this call; `m ≤ s.length` always holds at the call sites below). -/
def _sample (seq : List String) (k : Int) (pick : List String → Nat → List String) :
    List String :=
  if seq.isEmpty || k ≤ 0 then []
  else if (seq.length : Int) ≤ k then pick seq seq.length
  else pick seq k.toNat

/-- The blank marker `"____"` as a character list. -/
def blankL : List Char := ['_', '_', '_', '_']

/-- Python `re.sub(pat, repl, text)` for an *empty* (escaped) pattern:
the empty pattern matches at every position, so `repl` is inserted before
every character and at the end. -/
def interAll (repl : List Char) : List Char → List Char
  | [] => repl
  | c :: rest => repl ++ c :: interAll repl rest

/-- Fuel-indexed worker for literal replacement (structural recursion on
the fuel so that the kernel can evaluate it); `fuel ≥ text.length` holds at
every call site, making the fuel-exhausted branch unreachable. -/
def subAllF (pat repl : List Char) : Nat → List Char → List Char
  | 0, t => t
  | _ + 1, [] => []
  | f + 1, c :: rest =>
    if pat ≠ [] ∧ pat.isPrefixOf (c :: rest) then
      repl ++ subAllF pat repl f (rest.drop (pat.length - 1))
    else
      c :: subAllF pat repl f rest

/-- Python `re.sub(pat, repl, text)` for a *non-empty* escaped (literal)
pattern: every non-overlapping occurrence, scanning left to right, is
replaced.  (For `pat = []` this function is the identity; `subAll` routes
that case to `interAll` instead.) -/
def subAllNe (pat repl text : List Char) : List Char :=
  subAllF pat repl text.length text

/-- Python `re.sub(re.escape(pat), repl, text)`: literal replacement of all
non-overlapping occurrences, including the empty-pattern corner case. -/
def subAll (pat repl text : List Char) : List Char :=
  if pat = [] then interAll repl text else subAllNe pat repl text

/-- Does `pat` occur (as a literal contiguous substring) in `text`? -/
def occursIn (pat : List Char) : List Char → Bool
  | [] => pat.isEmpty
  | c :: rest => pat.isPrefixOf (c :: rest) || occursIn pat rest

/-- The character class `[ぁ-んァ-ン一-龯]` of the fallback regex in
`_hide_pattern`. -/
def isJpChar (c : Char) : Bool :=
  (0x3041 ≤ c.toNat && c.toNat ≤ 0x3093) ||
  (0x30A1 ≤ c.toNat && c.toNat ≤ 0x30F3) ||
  (0x4E00 ≤ c.toNat && c.toNat ≤ 0x9FAF)

/-- Python `re.sub(r"[ぁ-んァ-ン一-龯]{2,}", "____", text, count=1)`:
replace the first maximal run of two or more Japanese characters with the
blank marker; leave the text unchanged when no such run exists. -/
def fbMask : List Char → List Char
  | [] => []
  | [c] => [c]
  | c :: c2 :: rest =>
    if isJpChar c && isJpChar c2 then blankL ++ (c2 :: rest).dropWhile isJpChar
    else c :: fbMask (c2 :: rest)

/-- `_hide_pattern(text, pattern)` from `api.py`.  `re.escape` makes the
pattern literal (so the `except re.error` branch in the source is dead
code and no exception can occur); `re.sub` without `count` replaces every
non-overlapping occurrence. -/
def _hide_pattern (text : Option String) (pattern : Option String) : String :=
  match text with
  | none => ""
  | some t =>
    if t == "" then ""
    else
      let attempt : Option String :=
        match pattern with
        | none => none
        | some p =>
          if p == "" then none
          else
            let pat := pyStrip p
            let masked : String := ⟨subAll pat.data blankL t.data⟩
            if masked != t then some masked else none
      match attempt with
      | some m => m
      | none => ⟨fbMask t.data⟩

/-- `list(dict.fromkeys(l))` in Python: deduplicate keeping the first
occurrence of each element, preserving order.  `seen` accumulates the
elements already emitted. -/
def dedupAux (seen : List String) : List String → List String
  | [] => []
  | a :: rest =>
    if a ∈ seen then dedupAux seen rest
    else a :: dedupAux (a :: seen) rest

/-- `list(dict.fromkeys(l))`. -/
def pyDedup (l : List String) : List String := dedupAux [] l

/-- `random.choice(l)` with raw entropy `r`: some element of `l`
(`none` exactly when `l` is empty; Python raises there, but every call
site guards on non-emptiness first). -/
def pyChoice {α : Type} (l : List α) (r : Nat) : Option α :=
  l.get? (r % l.length)

/-- Correct answer of `_q_pattern`: `(p.pattern or "").strip() or "—"`. -/
def patternCorrect (p : GrammarPoint) : String :=
  pyOrS (pyStrip (p.pattern.getD "")) "—"

/-- Distractor candidates of `_q_pattern`:
`[x.pattern for x in pool if x.id != p.id and (x.pattern or "").strip()]`. -/
def patternCandidates (p : GrammarPoint) (pool : List GrammarPoint) : List String :=
  (pool.filter (fun x => x.id != p.id && pyStrip (x.pattern.getD "") != "")).map
    (fun x => x.pattern.getD "")

/-- `_q_pattern(p, pool)` from `api.py`; `pick` and `shuf` are this call's
`random.sample` and `random.shuffle` outcomes. -/
def _q_pattern (p : GrammarPoint) (pool : List GrammarPoint)
    (pick : List String → Nat → List String) (shuf : List String → List String) :
    QuizQuestion :=
  let correct := patternCorrect p
  let distractors := _sample (patternCandidates p pool) 3 pick
  let choices := shuf (distractors ++ [correct])
  { id := p.id, type := "pattern",
    prompt := "¿Qué patrón corresponde a: «" ++ pyStrip (pyOrO p.meaning_es p.title) ++ "»?",
    jp := none, choices := choices, answer_idx := choices.indexOf correct,
    meta := [("level", some p.level_code)] }

/-- `p.meaning_es if lang == "es" else p.meaning_en`. -/
def meaningField (x : GrammarPoint) (lang : String) : Option String :=
  if lang == "es" then x.meaning_es else x.meaning_en

/-- Correct answer of `_q_meaning`: `(meaning) or p.title or "—"`. -/
def meaningCorrect (p : GrammarPoint) (lang : String) : String :=
  pyOrS (pyOrO (meaningField p lang) p.title) "—"

/-- Raw candidate list of `_q_meaning` (before the truthiness filter at the
`_sample` call): `[(meaning) or x.title for x in pool if x.id != p.id]`. -/
def meaningCandidates (p : GrammarPoint) (pool : List GrammarPoint) (lang : String) :
    List String :=
  (pool.filter (fun x => x.id != p.id)).map (fun x => pyOrO (meaningField x lang) x.title)

/-- `_q_meaning(p, pool, lang)` from `api.py`. -/
def _q_meaning (p : GrammarPoint) (pool : List GrammarPoint) (lang : String)
    (pick : List String → Nat → List String) (shuf : List String → List String) :
    QuizQuestion :=
  let correct := meaningCorrect p lang
  let distractors := _sample ((meaningCandidates p pool lang).filter (fun c => c != "")) 3 pick
  let choices := shuf (distractors ++ [correct])
  { id := p.id, type := "meaning",
    prompt := "¿Cuál es el significado de «" ++ pyStrip (pyOrO p.pattern p.title) ++ "»?",
    jp := none, choices := choices, answer_idx := choices.indexOf correct,
    meta := [("level", some p.level_code)] }

/-- `(x.es if lang == "es" else x.en) or ""`. -/
def exTrans (x : Example) (lang : String) : String :=
  (if lang == "es" then x.es else x.en).getD ""

/-- Correct answer of `_q_translation`. -/
def translationCorrect (ex : Example) (lang : String) : String := exTrans ex lang

/-- Candidates of `_q_translation` after its explicit filter
`[c for c in candidates if c and c != correct]`. -/
def translationCandidates (ex : Example) (pool : List Example) (lang : String) :
    List String :=
  ((pool.filter (fun x => x.id != ex.id)).map (fun x => exTrans x lang)).filter
    (fun c => c != "" && c != translationCorrect ex lang)

/-- `_q_translation(ex, pool, lang)` from `api.py`. -/
def _q_translation (ex : Example) (pool : List Example) (lang : String)
    (pick : List String → Nat → List String) (shuf : List String → List String) :
    QuizQuestion :=
  let correct := translationCorrect ex lang
  let distractors := _sample (translationCandidates ex pool lang) 3 pick
  let choices := shuf (distractors ++ [correct])
  { id := ex.id.getD "", type := "translation", prompt := "Elige la traducción correcta:",
    jp := some (ex.jp.getD ""), choices := choices, answer_idx := choices.indexOf correct,
    meta := [("grammar_id", ex.grammar_id), ("level", ex.level_code)] }

/-- The pattern looked up in `gp_lookup` by `_q_cloze`:
`if ex.grammar_id and ex.grammar_id in gp_lookup: pattern = gp_lookup[...].pattern`.
The dict `{p.id: p for p in points}` keeps the *last* point per id. -/
def clozeLinkedPattern (ex : Example) (lookupPts : List GrammarPoint) : Option String :=
  match ex.grammar_id with
  | none => none
  | some g =>
    if g == "" then none
    else
      match lookupPts.reverse.find? (fun p => p.id == g) with
      | none => none
      | some p => p.pattern

/-- Correct answer of `_q_cloze`: `(pattern or ex.pattern or "—").strip()`. -/
def clozeCorrect (ex : Example) (lookupPts : List GrammarPoint) : String :=
  pyStrip (pyOrO (clozeLinkedPattern ex lookupPts) (pyOrO ex.pattern "—"))

/-- Same-level candidate list of `_q_cloze` (duplicates kept, as in the
source): `[p.pattern for p in same_level if p.pattern and p.pattern != correct]`. -/
def clozeSameLevelCands (ex : Example) (lookupPts pts : List GrammarPoint) : List String :=
  ((pts.filter (fun p => p.level_code == ex.level_code.getD "")).filter
      (fun p => p.pattern.getD "" != "" && p.pattern.getD "" != clozeCorrect ex lookupPts)).map
    (fun p => p.pattern.getD "")

/-- Full-pool candidate list used by the widening `candidates.extend(...)`. -/
def clozeFullCands (ex : Example) (lookupPts pts : List GrammarPoint) : List String :=
  (pts.filter
      (fun p => p.pattern.getD "" != "" && p.pattern.getD "" != clozeCorrect ex lookupPts)).map
    (fun p => p.pattern.getD "")

/-- Final candidate list of `_q_cloze`: widen when the same-level list has
fewer than 3 entries (duplicates counted, as in the source), then filter
truthy and deduplicate keeping first occurrences. -/
def clozeCandidates (ex : Example) (lookupPts pts : List GrammarPoint) : List String :=
  let sl := clozeSameLevelCands ex lookupPts pts
  let cand := if sl.length < 3 then sl ++ clozeFullCands ex lookupPts pts else sl
  pyDedup (cand.filter (fun c => c != ""))

/-- `_q_cloze(ex, gp_lookup, pool_points)` from `api.py`. -/
def _q_cloze (ex : Example) (lookupPts pool_points : List GrammarPoint)
    (pick : List String → Nat → List String) (shuf : List String → List String) :
    QuizQuestion :=
  let masked := _hide_pattern (some (ex.jp.getD "")) (clozeLinkedPattern ex lookupPts)
  let correct := clozeCorrect ex lookupPts
  let distractors := _sample (clozeCandidates ex lookupPts pool_points) 3 pick
  let choices := shuf (distractors ++ [correct])
  { id := ex.id.getD "", type := "cloze", prompt := "Completa la oración:",
    jp := some masked, choices := choices, answer_idx := choices.indexOf correct,
    meta := [("grammar_id", ex.grammar_id), ("level", ex.level_code)] }

/-- A run of the process-wide random source, indexed by an abstract call
counter: `pickF t` / `shufF t` / `choiceF t` are the outcomes of the
`random.sample` / `random.shuffle` / `random.choice` calls made by the
`t`-th builder attempt of a `/quiz` request, and `shufQF` is the final
`random.shuffle(questions)`. -/
structure Rng where
  pickF : Nat → List String → Nat → List String
  shufF : Nat → List String → List String
  choiceF : Nat → Nat
  shufQF : List QuizQuestion → List QuizQuestion

/-- `add_cloze()` from the `/quiz` endpoint: filter the usable example pool,
pick a focal example, append a cloze question.  Returns the Python `bool`
plus the updated `questions` list. -/
def addCloze (examples : List Example) (points : List GrammarPoint) (R : Rng) (t : Nat)
    (qs : List QuizQuestion) : Bool × List QuizQuestion :=
  let ex_pool := examples.filter
    (fun e => truthyO e.jp && (truthyO e.grammar_id || truthyO e.pattern))
  match pyChoice ex_pool (R.choiceF t) with
  | none => (false, qs)
  | some ex => (true, qs ++ [_q_cloze ex points points (R.pickF t) (R.shufF t)])

/-- `add_translation()` from the `/quiz` endpooint: note the distractor pool
passed to the builder is the *filtered* `ex_pool`. -/
def addTranslation (examples : List Example) (lang : String) (R : Rng) (t : Nat)
    (qs : List QuizQuestion) : Bool × List QuizQuestion :=
  let ex_pool := examples.filter (fun e => truthyO (if lang == "es" then e.es else e.en))
  match pyChoice ex_pool (R.choiceF t) with
  | none => (false, qs)
  | some ex => (true, qs ++ [_q_translation ex ex_pool lang (R.pickF t) (R.shufF t)])

/-- `add_pattern()` from the `/quiz` endpoint.  (`random.choice(points)`
would raise on an empty list; the endpoint guarantees `points` non-empty
before any builder runs, and the `none` branch is the unreachable image of
that situation.) -/
def addPattern (points : List GrammarPoint) (R : Rng) (t : Nat)
    (qs : List QuizQuestion) : Bool × List QuizQuestion :=
  match pyChoice points (R.choiceF t) with
  | none => (false, qs)
  | some p => (true, qs ++ [_q_pattern p points (R.pickF t) (R.shufF t)])

/-- `add_meaning()` from the `/quiz` endpoint. -/
def addMeaning (points : List GrammarPoint) (lang : String) (R : Rng) (t : Nat)
    (qs : List QuizQuestion) : Bool × List QuizQuestion :=
  match pyChoice points (R.choiceF t) with
  | none => (false, qs)
  | some p => (true, qs ++ [_q_meaning p points lang (R.pickF t) (R.shufF t)])

/-- One pass of the `type == "mix"` loop: the `for t in order` body with
`order = ["cloze", "pattern", "meaning", "translation"]`, checking
`len(questions) >= n` before each builder and accumulating `made`. -/
def mixPass (points : List GrammarPoint) (examples : List Example) (lang : String)
    (n : Nat) (R : Rng) (t : Nat) (qs : List QuizQuestion) :
    Bool × Nat × List QuizQuestion :=
  if qs.length ≥ n then (false, t, qs) else
  let r1 := addCloze examples points R t qs
  if r1.2.length ≥ n then (r1.1, t + 1, r1.2) else
  let r2 := addPattern points R (t + 1) r1.2
  if r2.2.length ≥ n then (r1.1 || r2.1, t + 2, r2.2) else
  let r3 := addMeaning points lang R (t + 2) r2.2
  if r3.2.length ≥ n then (r1.1 || r2.1 || r3.1, t + 3, r3.2) else
  let r4 := addTranslation examples lang R (t + 3) r3.2
  (r1.1 || r2.1 || r3.1 || r4.1, t + 4, r4.2)

/-- Result of one iteration of the `while len(questions) < n` mix loop:
either continue looping or break (the
`if not add_pattern() and not add_meaning(): break` branch — note both
calls *append* a question when they succeed). -/
inductive MixStepRes where
  | cont (t : Nat) (qs : List QuizQuestion)
  | stop (t : Nat) (qs : List QuizQuestion)

/-- One iteration of the mix loop body. -/
def mixStep (points : List GrammarPoint) (examples : List Example) (lang : String)
    (n : Nat) (R : Rng) (t : Nat) (qs : List QuizQuestion) : MixStepRes :=
  let r := mixPass points examples lang n R t qs
  if r.1 then .cont r.2.1 r.2.2
  else
    let rp := addPattern points R r.2.1 r.2.2
    if rp.1 then .cont (r.2.1 + 1) rp.2
    else
      let rm := addMeaning points lang R (r.2.1 + 1) rp.2
      if rm.1 then .cont (r.2.1 + 2) rm.2 else .stop (r.2.1 + 2) rm.2

/-- The `while len(questions) < n` loop of the mix branch.  The Python loop
is unbounded; `fuel` makes the embedding total, and the fuel-stability
theorem below shows any `fuel ≥ n` computes the loop's actual fixpoint
whenever `points` is non-empty (the only situation in which the loop runs),
so the embedding agrees with the source on all reachable inputs. -/
def mixLoop (points : List GrammarPoint) (examples : List Example) (lang : String)
    (n : Nat) (R : Rng) : Nat → Nat → List QuizQuestion → Nat × List QuizQuestion
  | 0, t, qs => (t, qs)
  | fuel + 1, t, qs =>
    if qs.length ≥ n then (t, qs)
    else
      match mixStep points examples lang n R t qs with
      | .cont t' qs' => mixLoop points examples lang n R fuel t' qs'
      | .stop t' qs' => (t', qs')

/-- The fallback scan
`for alt_name in [...]: if alt_name != type and builders[alt_name]():` of
the single-type branch (`alts` is the builder list with the requested type
already removed). -/
def tryAlts : List (Nat → List QuizQuestion → Bool × List QuizQuestion) → Nat →
    List QuizQuestion → Option (Nat × List QuizQuestion)
  | [], _, _ => none
  | b :: bs, t, qs =>
    let r := b t qs
    if r.1 then some (t + 1, r.2) else tryAlts bs (t + 1) r.2

/-- The `while len(questions) < n and guard < 200` loop of the single-type
branch; `fuel` is `200 - guard`, so the hard attempt ceiling of the source
is structural here. -/
def typLoop (build : Nat → List QuizQuestion → Bool × List QuizQuestion)
    (alts : List (Nat → List QuizQuestion → Bool × List QuizQuestion)) (n : Nat) :
    Nat → Nat → List QuizQuestion → Nat × List QuizQuestion
  | 0, t, qs => (t, qs)
  | fuel + 1, t, qs =>
    if qs.length ≥ n then (t, qs)
    else
      let r := build t qs
      if r.1 then typLoop build alts n fuel (t + 1) r.2
      else
        match tryAlts alts (t + 1) r.2 with
        | some (t', qs') => typLoop build alts n fuel t' qs'
        | none => (t + 1, r.2)

/-- The `builders` dict of the endpoint.  The HTTP layer validates
`type` against `^(mix|cloze|pattern|meaning|translation)$`, so the
catch-all branch is never reached for a request that gets this far. -/
def builderFor (ty : String) (points : List GrammarPoint) (examples : List Example)
    (lang : String) (R : Rng) : Nat → List QuizQuestion → Bool × List QuizQuestion :=
  if ty == "cloze" then fun t qs => addCloze examples points R t qs
  else if ty == "translation" then fun t qs => addTranslation examples lang R t qs
  else if ty == "meaning" then fun t qs => addMeaning points lang R t qs
  else fun t qs => addPattern points R t qs

/-- The fallback order `["pattern", "meaning", "cloze", "translation"]`
minus the requested type. -/
def altsFor (ty : String) (points : List GrammarPoint) (examples : List Example)
    (lang : String) (R : Rng) : List (Nat → List QuizQuestion → Bool × List QuizQuestion) :=
  (["pattern", "meaning", "cloze", "translation"].filter (fun s => s != ty)).map
    (fun s => builderFor s points examples lang R)

/-- The accumulated `questions` list of a `/quiz` request, before the final
shuffle and truncation.  Examples are loaded only for the mix, cloze and
translation types, exactly as in the endpoint. -/
def quizQuestions (points : List GrammarPoint) (examplesLoaded : List Example) (n : Nat)
    (ty lang : String) (R : Rng) : List QuizQuestion :=
  let examples := if ty == "mix" || ty == "cloze" || ty == "translation"
    then examplesLoaded else []
  if ty == "mix" then (mixLoop points examples lang n R n 0 []).2
  else (typLoop (builderFor ty points examples lang R)
        (altsFor ty points examples lang R) n 200 0 []).2

/-- `random.shuffle(questions); return questions[:n]`. -/
def quizReturn (points : List GrammarPoint) (examplesLoaded : List Example) (n : Nat)
    (ty lang : String) (R : Rng) : List QuizQuestion :=
  (R.shufQF (quizQuestions points examplesLoaded n ty lang R)).take n

/-- The `/quiz` endpoint body after the pools are fetched: raise 404
(`Except.error`) exactly when no grammar points matched the filter,
otherwise assemble and return the questions. -/
def quizGen (points : List GrammarPoint) (examplesLoaded : List Example) (n : Nat)
    (ty lang : String) (R : Rng) : Except String (List QuizQuestion) :=
  if points.isEmpty then .error "No hay puntos gramaticales para ese filtro."
  else .ok (quizReturn points examplesLoaded n ty lang R)

/-- Contract of `random.sample(s, m)` (documented Python behaviour): the
result has exactly `m` entries, drawn without replacement from distinct
positions of `s` — i.e. it is a permutation of a sub-multiset of `s`. -/
def PickOK (pick : List String → Nat → List String) : Prop :=
  ∀ s m, m ≤ s.length → (pick s m).length = m ∧ List.Subperm (pick s m) s

/-- Contract of `random.shuffle`: the result is a permutation of the input. -/
def ShufOK (shuf : List String → List String) : Prop :=
  ∀ s, List.Perm (shuf s) s

/-- A concrete admissible `random.sample` outcome: the first `m` elements in
order (the seed drawing positions `0, 1, ..., m-1`). -/
def pick0 : List String → Nat → List String := fun s m => s.take m

/-- A concrete admissible `random.shuffle` outcome: the identity permutation. -/
def shuf0 : List String → List String := fun s => s

/-- A concrete random-source run built from `pick0` and `shuf0`. -/
def R0 : Rng := ⟨fun _ => pick0, fun _ => shuf0, fun _ => 0, fun qs => qs⟩

/-- Structural well-formedness of a built question with respect to its
computed correct answer: 1–4 choices, the correct answer occurs,
`answer_idx` is the index of its *first* occurrence (hence in range), and
indexing the choices at `answer_idx` yields the correct answer. -/
def QWF (q : QuizQuestion) (correct : String) : Prop :=
  1 ≤ q.choices.length ∧ q.choices.length ≤ 4 ∧ correct ∈ q.choices ∧
  q.answer_idx = q.choices.indexOf correct ∧ q.answer_idx < q.choices.length ∧
  q.choices.getD q.answer_idx "" = correct ∧
  ∀ j, j < q.answer_idx → q.choices.getD j "" ≠ correct

/-- Fixture: a grammar point with a pattern and a Spanish meaning. -/
def gpTeiru : GrammarPoint :=
  ⟨"gp1", "N5", "te-iru", some "ている", some "acción en curso", none, none, [], none,
    some true⟩

/-- Fixture: a second grammar point sharing the same pattern string. -/
def gpTeiru2 : GrammarPoint :=
  ⟨"gp2", "N5", "te-iru-2", some "ている", some "estado resultante", none, none, [], none,
    some true⟩

/-- Fixture: an example sentence linked to `gpTeiru`. -/
def exW : Example :=
  ⟨some "ex1", some "gp1", some "N5", none, some "ている", some "猫が食べている。",
    some "El gato está comiendo.", some "The cat is eating.", none⟩

/-- Fixture: a second example with a different Spanish translation. -/
def exW2 : Example :=
  ⟨some "ex2", some "gp1", some "N5", none, some "ている", some "犬が走っている。",
    some "El perro está corriendo.", none, none⟩

/-- Fixtures for the cloze widening corner: three same-level points sharing
one pattern string and one other-level point with a fresh pattern. -/
def gpA1 : GrammarPoint := ⟨"a1", "N5", "A1", some "A", none, none, none, [], none, some true⟩

def gpA2 : GrammarPoint := ⟨"a2", "N5", "A2", some "A", none, none, none, [], none, some true⟩

def gpA3 : GrammarPoint := ⟨"a3", "N5", "A3", some "A", none, none, none, [], none, some true⟩

def gpB : GrammarPoint := ⟨"b1", "N4", "B1", some "B", none, none, none, [], none, some true⟩

def exC4 : Example :=
  ⟨some "e4", none, some "N5", none, some "X", some "ここ", none, none, none⟩

def ptsC4 : List GrammarPoint := [gpA1, gpA2, gpA3, gpB]

/-- Fixture: an example with no grammar link whose own pattern copy stays in
the sentence after the heuristic mask. -/
def exC5 : Example :=
  ⟨some "e5", none, some "N5", none, some "です", some "ここ、です", none, none, none⟩

/-- Fixture: a grammar point and a linked example whose pattern occurs in
the sentence. -/
def gpW5 : GrammarPoint :=
  ⟨"g5", "N5", "desu", some "です", some "ser", none, none, [], none, some true⟩

/-- Fixture: example linked to `gpW5`. -/
def exW5 : Example :=
  ⟨some "e6", some "g5", some "N5", none, none, some "ここです", some "aquí es", none, none⟩

theorem pick0_ok : PickOK pick0 := by
  intro s m hm
  exact ⟨by simp [pick0, List.length_take, Nat.min_eq_left hm],
    (List.take_sublist m s).subperm⟩

theorem shuf0_ok : ShufOK shuf0 := fun s => List.Perm.refl s

/-- `_sample` returns `[]` when the pool is empty or `k ≤ 0`. -/
theorem _sample_empty (seq : List String) (k : Int)
    (pick : List String → Nat → List String) (h : seq = [] ∨ k ≤ 0) :
    _sample seq k pick = [] := by
  rcases h with h | h
  · simp [_sample, h]
  · simp [_sample, h]

/-- For a positive request, `_sample` returns `min k len` elements. -/
theorem _sample_length (seq : List String) (k : Int)
    (pick : List String → Nat → List String) (hp : PickOK pick) (hk : 0 < k) :
    (_sample seq k pick).length = min k.toNat seq.length := by
  unfold _sample
  rcases Decidable.em (seq.isEmpty = true) with he | he
  · rw [List.isEmpty_iff] at he
    simp [he, Nat.min_zero]
  · have h1 : ¬ ((seq.isEmpty || decide (k ≤ 0)) = true) := by
      simp only [Bool.or_eq_true, decide_eq_true_eq]
      exact fun h => h.elim he (by omega)
    rw [if_neg h1]
    by_cases hle : (seq.length : Int) ≤ k
    · rw [if_pos hle, (hp seq seq.length (Nat.le_refl _)).1,
        Nat.min_eq_right (by omega)]
    · rw [if_neg hle, (hp seq k.toNat (by omega)).1, Nat.min_eq_left (by omega)]

/-- `_sample` always draws a sub-multiset of the pool. -/
theorem _sample_subperm (seq : List String) (k : Int)
    (pick : List String → Nat → List String) (hp : PickOK pick) :
    List.Subperm (_sample seq k pick) seq := by
  unfold _sample
  by_cases h0 : seq.isEmpty || decide (k ≤ 0)
  · simp only [h0, if_pos]
    exact List.nil_subperm
  · simp only [h0, Bool.false_eq_true, if_neg]
    by_cases hle : (seq.length : Int) ≤ k
    · rw [if_pos hle]
      exact (hp seq seq.length (Nat.le_refl _)).2
    · rw [if_neg hle]
      refine (hp seq k.toNat ?_).2
      simp only [Bool.or_eq_true, decide_eq_true_eq] at h0
      omega

/-- For `k` at least the pool size, `_sample` returns a full permutation. -/
theorem _sample_perm (seq : List String) (k : Int)
    (pick : List String → Nat → List String) (hp : PickOK pick)
    (hk : 0 < k) (hge : (seq.length : Int) ≤ k) :
    List.Perm (_sample seq k pick) seq := by
  refine List.Subperm.perm_of_length_le (_sample_subperm seq k pick hp) ?_
  rw [_sample_length seq k pick hp hk, Nat.min_eq_right (by omega)]

/-- The shared tail of every builder:
`choices = distractors + [correct]; random.shuffle(choices);
answer_idx = choices.index(correct)`. -/
theorem choices_block (cands : List String) (c : String)
    (pick : List String → Nat → List String) (shuf : List String → List String)
    (hp : PickOK pick) (hs : ShufOK shuf) :
    c ∈ shuf (_sample cands 3 pick ++ [c]) ∧
    (shuf (_sample cands 3 pick ++ [c])).length = min 3 cands.length + 1 ∧
    (shuf (_sample cands 3 pick ++ [c])).indexOf c <
      (shuf (_sample cands 3 pick ++ [c])).length ∧
    (shuf (_sample cands 3 pick ++ [c])).getD
      ((shuf (_sample cands 3 pick ++ [c])).indexOf c) "" = c := by
  have hmem : c ∈ shuf (_sample cands 3 pick ++ [c]) := by
    refine (List.Perm.mem_iff (hs _)).mpr ?_
    exact List.mem_append_right _ (List.mem_singleton_self c)
  have hlen : (shuf (_sample cands 3 pick ++ [c])).length = min 3 cands.length + 1 := by
    rw [List.Perm.length_eq (hs _), List.length_append, List.length_singleton]
    congr 1
    rcases Decidable.em (cands = []) with he | he
    · rw [_sample_empty cands 3 pick (Or.inl he), he]
      simp
    · rw [_sample_length cands 3 pick hp (by omega)]
      rfl
  have hidx : (shuf (_sample cands 3 pick ++ [c])).indexOf c <
      (shuf (_sample cands 3 pick ++ [c])).length := List.indexOf_lt_length.mpr hmem
  refine ⟨hmem, hlen, hidx, ?_⟩
  rw [List.getD_eq_getElem _ _ hidx]
  exact List.getElem_indexOf hidx

/-- Entries strictly before `l.indexOf a` differ from `a`
(`list.index` returns the first occurrence). -/
theorem getD_ne_of_lt_indexOf {a : String} : ∀ {l : List String} {j : Nat},
    j < l.indexOf a → l.getD j "" ≠ a
  | [], j, h => by simp [List.indexOf_nil] at h
  | b :: l, j, h => by
    by_cases hba : b = a
    · rw [List.indexOf_cons_eq l hba] at h
      exact absurd h (Nat.not_lt_zero j)
    · rw [List.indexOf_cons_ne l hba] at h
      match j with
      | 0 => simpa using hba
      | j' + 1 =>
        have : j' < l.indexOf a := Nat.lt_of_succ_lt_succ h
        simpa using getD_ne_of_lt_indexOf this

/-- Any question whose choices and answer index follow the shared builder
tail is well-formed. -/
theorem qwf_of_block (cands : List String) (c : String)
    (pick : List String → Nat → List String) (shuf : List String → List String)
    (hp : PickOK pick) (hs : ShufOK shuf) (q : QuizQuestion)
    (hch : q.choices = shuf (_sample cands 3 pick ++ [c]))
    (hai : q.answer_idx = q.choices.indexOf c) :
    QWF q c := by
  obtain ⟨hmem, hlen, hidx, hget⟩ := choices_block cands c pick shuf hp hs
  rw [← hch] at hmem hlen hidx hget
  refine ⟨?_, ?_, hmem, hai, ?_, ?_, ?_⟩
  · omega
  · have : min 3 cands.length ≤ 3 := Nat.min_le_left _ _
    omega
  · rw [hai]; exact hidx
  · rw [hai]; exact hget
  · intro j hj
    rw [hai] at hj
    exact getD_ne_of_lt_indexOf hj

/-- The exact choice-list length of the shared builder tail. -/
theorem len_of_block (cands : List String) (c : String)
    (pick : List String → Nat → List String) (shuf : List String → List String)
    (hp : PickOK pick) (hs : ShufOK shuf) (q : QuizQuestion)
    (hch : q.choices = shuf (_sample cands 3 pick ++ [c])) :
    q.choices.length = min 3 cands.length + 1 := by
  rw [hch]
  exact (choices_block cands c pick shuf hp hs).2.1

/-- Claim C10: for every question produced by any of the four builders,
under every admissible `random.sample` / `random.shuffle` outcome, the
choices list has between 1 and 4 entries, the computed correct answer
occurs in it, `answer_idx` is the position of the first occurrence of the
correct answer (hence `0 ≤ answer_idx < len(choices)`), and indexing the
choices at `answer_idx` yields the correct answer — the index lookup never
fails even with fewer than 3 distractor candidates. -/
theorem C10_builders_wf (p : GrammarPoint) (pool : List GrammarPoint) (lang : String)
    (ex : Example) (epool : List Example) (lookupPts pts : List GrammarPoint)
    (pick : List String → Nat → List String) (shuf : List String → List String)
    (hp : PickOK pick) (hs : ShufOK shuf) :
    QWF (_q_pattern p pool pick shuf) (patternCorrect p) ∧
    QWF (_q_meaning p pool lang pick shuf) (meaningCorrect p lang) ∧
    QWF (_q_translation ex epool lang pick shuf) (translationCorrect ex lang) ∧
    QWF (_q_cloze ex lookupPts pts pick shuf) (clozeCorrect ex lookupPts) := by
  exact ⟨qwf_of_block _ _ pick shuf hp hs _ rfl rfl,
    qwf_of_block _ _ pick shuf hp hs _ rfl rfl,
    qwf_of_block _ _ pick shuf hp hs _ rfl rfl,
    qwf_of_block _ _ pick shuf hp hs _ rfl rfl⟩

/-- Claim C10 witness: the builder well-formedness at a concrete pool and a
concrete admissible random outcome. -/
theorem C10_builders_wf_witness :
    QWF (_q_pattern gpTeiru [gpTeiru, gpTeiru2] pick0 shuf0) (patternCorrect gpTeiru) ∧
    QWF (_q_meaning gpTeiru [gpTeiru, gpTeiru2] "es" pick0 shuf0)
      (meaningCorrect gpTeiru "es") ∧
    QWF (_q_translation exW [exW] "es" pick0 shuf0) (translationCorrect exW "es") ∧
    QWF (_q_cloze exW [gpTeiru] [gpTeiru] pick0 shuf0) (clozeCorrect exW [gpTeiru]) :=
  C10_builders_wf gpTeiru [gpTeiru, gpTeiru2] "es" exW [exW] [gpTeiru] [gpTeiru]
    pick0 shuf0 pick0_ok shuf0_ok

/-- Claim C1 (counterexample): with a singleton pool the pattern builder has
no distractor candidates and builds a question with exactly 1 choice, not 4
(`pick0`/`shuf0` are admissible outcomes of `random.sample`/`random.shuffle`,
namely drawing the first positions and the identity permutation). -/
theorem C1_cex :
    (_q_pattern gpTeiru [gpTeiru] pick0 shuf0).choices.length = 1 ∧
    ¬ ((_q_pattern gpTeiru [gpTeiru] pick0 shuf0).choices.length = 4) := by
  decide

/-- Claim C1 (amended): each builder's choices list has exactly
`min 3 #candidates + 1` entries — so exactly 4 whenever at least 3
distractor candidates exist, and fewer otherwise — and in every case
`0 ≤ answer_idx < len(choices)` with `choices[answer_idx]` equal to the
computed correct answer (see `QWF` for the index facts). -/
theorem C1_amended (p : GrammarPoint) (pool : List GrammarPoint) (lang : String)
    (ex : Example) (epool : List Example) (lookupPts pts : List GrammarPoint)
    (pick : List String → Nat → List String) (shuf : List String → List String)
    (hp : PickOK pick) (hs : ShufOK shuf) :
    (_q_pattern p pool pick shuf).choices.length
        = min 3 (patternCandidates p pool).length + 1 ∧
    (_q_meaning p pool lang pick shuf).choices.length
        = min 3 ((meaningCandidates p pool lang).filter (fun c => c != "")).length + 1 ∧
    (_q_translation ex epool lang pick shuf).choices.length
        = min 3 (translationCandidates ex epool lang).length + 1 ∧
    (_q_cloze ex lookupPts pts pick shuf).choices.length
        = min 3 (clozeCandidates ex lookupPts pts).length + 1 := by
  refine ⟨?_, ?_, ?_, ?_⟩ <;> exact len_of_block _ _ pick shuf hp hs _ rfl

/-- Claim C1 (amended) witness at a concrete pool with one distractor
candidate: 2 choices. -/
theorem C1_amended_witness :
    (_q_pattern gpTeiru [gpTeiru, gpTeiru2] pick0 shuf0).choices.length
        = min 3 (patternCandidates gpTeiru [gpTeiru, gpTeiru2]).length + 1 ∧
    (_q_meaning gpTeiru [gpTeiru, gpTeiru2] "es" pick0 shuf0).choices.length
        = min 3 ((meaningCandidates gpTeiru [gpTeiru, gpTeiru2] "es").filter
            (fun c => c != "")).length + 1 ∧
    (_q_translation exW [exW] "es" pick0 shuf0).choices.length
        = min 3 (translationCandidates exW [exW] "es").length + 1 ∧
    (_q_cloze exW [gpTeiru] [gpTeiru] pick0 shuf0).choices.length
        = min 3 (clozeCandidates exW [gpTeiru] [gpTeiru]).length + 1 :=
  C1_amended gpTeiru [gpTeiru, gpTeiru2] "es" exW [exW] [gpTeiru] [gpTeiru]
    pick0 shuf0 pick0_ok shuf0_ok

theorem mem_of_mem_dedupAux : ∀ (seen l : List String) (a : String),
    a ∈ dedupAux seen l → a ∈ l
  | _, [], _, h => by simp [dedupAux] at h
  | seen, b :: rest, a, h => by
    by_cases hb : b ∈ seen
    · simp only [dedupAux, if_pos hb] at h
      exact List.mem_cons_of_mem b (mem_of_mem_dedupAux seen rest a h)
    · simp only [dedupAux, if_neg hb] at h
      rcases List.mem_cons.mp h with h | h
      · exact h ▸ List.mem_cons_self _ _
      · exact List.mem_cons_of_mem b (mem_of_mem_dedupAux (b :: seen) rest a h)

theorem not_mem_dedupAux : ∀ (seen l : List String) (a : String),
    a ∈ seen → a ∉ dedupAux seen l
  | _, [], _, _ => by simp [dedupAux]
  | seen, b :: rest, a, ha => by
    by_cases hb : b ∈ seen
    · simp only [dedupAux, if_pos hb]
      exact not_mem_dedupAux seen rest a ha
    · simp only [dedupAux, if_neg hb]
      intro h
      rcases List.mem_cons.mp h with h | h
      · exact hb (h ▸ ha)
      · exact not_mem_dedupAux (b :: seen) rest a (List.mem_cons_of_mem _ ha) h

theorem mem_dedupAux_of_mem : ∀ (seen l : List String) (a : String),
    a ∈ l → a ∉ seen → a ∈ dedupAux seen l
  | _, [], _, h, _ => absurd h (List.not_mem_nil _)
  | seen, b :: rest, a, h, hns => by
    by_cases hb : b ∈ seen
    · simp only [dedupAux, if_pos hb]
      rcases List.mem_cons.mp h with h | h
      · exact absurd (h ▸ hb) hns
      · exact mem_dedupAux_of_mem seen rest a h hns
    · simp only [dedupAux, if_neg hb]
      rcases List.mem_cons.mp h with h | h
      · exact h ▸ List.mem_cons_self _ _
      · by_cases hab : a = b
        · exact hab ▸ List.mem_cons_self _ _
        · refine List.mem_cons_of_mem _ (mem_dedupAux_of_mem (b :: seen) rest a h ?_)
          intro hmem
          rcases List.mem_cons.mp hmem with hmem | hmem
          · exact hab hmem
          · exact hns hmem

theorem nodup_dedupAux : ∀ (seen l : List String), (dedupAux seen l).Nodup
  | _, [] => List.nodup_nil
  | seen, b :: rest => by
    by_cases hb : b ∈ seen
    · simp only [dedupAux, if_pos hb]
      exact nodup_dedupAux seen rest
    · simp only [dedupAux, if_neg hb]
      refine List.Nodup.cons ?_ (nodup_dedupAux (b :: seen) rest)
      exact not_mem_dedupAux (b :: seen) rest b (List.mem_cons_self _ _)

/-- `pyDedup` output: membership is preserved both ways and the result has
no duplicates. -/
theorem pyDedup_mem (l : List String) (a : String) : a ∈ pyDedup l ↔ a ∈ l :=
  ⟨mem_of_mem_dedupAux [] l a, fun h => mem_dedupAux_of_mem [] l a h (List.not_mem_nil a)⟩

theorem pyDedup_nodup (l : List String) : (pyDedup l).Nodup := nodup_dedupAux [] l

theorem pyStrip_empty : pyStrip "" = "" := rfl

/-- An `Optional[str]` whose `getD ""` is non-empty is `some` of that value. -/
theorem some_of_getD {o : Option String} {c : String} (h : o.getD "" = c) (hc : c ≠ "") :
    o = some c := by
  cases o with
  | none => exact absurd h.symm hc
  | some s => rw [Option.getD_some] at h; rw [h]

/-- Facts about the `_q_pattern` candidate list: entries come from other
records and are non-empty, but the source has no filter against the correct
answer here. -/
theorem patternCand_facts (p : GrammarPoint) (pool : List GrammarPoint) (c : String)
    (h : c ∈ patternCandidates p pool) :
    c ≠ "" ∧ ∃ x ∈ pool, x.id ≠ p.id ∧ x.pattern = some c := by
  obtain ⟨x, hx, hxc⟩ := List.mem_map.mp h
  obtain ⟨hxpool, hcond⟩ := List.mem_filter.mp hx
  rw [Bool.and_eq_true] at hcond
  have hid : x.id ≠ p.id := by
    have := hcond.1
    simpa [bne_iff_ne] using this
  have hstrip : pyStrip (x.pattern.getD "") ≠ "" := by
    have := hcond.2
    simpa [bne_iff_ne] using this
  have hc : c ≠ "" := by
    intro hc0
    refine hstrip ?_
    rw [hxc, hc0]
    exact pyStrip_empty
  exact ⟨hc, x, hxpool, hid, some_of_getD hxc hc⟩

/-- Facts about the filtered `_q_meaning` candidate list actually passed to
`_sample`: entries come from other records and are non-empty; again no
filter against the correct answer. -/
theorem meaningCand_facts (p : GrammarPoint) (pool : List GrammarPoint) (lang : String)
    (c : String) (h : c ∈ (meaningCandidates p pool lang).filter (fun s => s != "")) :
    c ≠ "" ∧ ∃ x ∈ pool, x.id ≠ p.id ∧ c = pyOrO (meaningField x lang) x.title := by
  obtain ⟨hmem, hne⟩ := List.mem_filter.mp h
  obtain ⟨x, hx, hxc⟩ := List.mem_map.mp hmem
  obtain ⟨hxpool, hid⟩ := List.mem_filter.mp hx
  refine ⟨by simpa [bne_iff_ne] using hne, x, hxpool, ?_, hxc.symm⟩
  simpa [bne_iff_ne] using hid

/-- Facts about the `_q_translation` candidate list: entries come from other
records, are non-empty, and (here the source *does* filter) differ from the
correct answer. -/
theorem translationCand_facts (ex : Example) (epool : List Example) (lang : String)
    (c : String) (h : c ∈ translationCandidates ex epool lang) :
    c ≠ "" ∧ c ≠ translationCorrect ex lang ∧
      ∃ x ∈ epool, x.id ≠ ex.id ∧ c = exTrans x lang := by
  obtain ⟨hmem, hcond⟩ := List.mem_filter.mp h
  rw [Bool.and_eq_true] at hcond
  obtain ⟨x, hx, hxc⟩ := List.mem_map.mp hmem
  obtain ⟨hxpool, hid⟩ := List.mem_filter.mp hx
  refine ⟨by simpa [bne_iff_ne] using hcond.1, by simpa [bne_iff_ne] using hcond.2,
    x, hxpool, ?_, hxc.symm⟩
  simpa [bne_iff_ne] using hid

/-- Facts about the final `_q_cloze` candidate list: entries are non-empty
pattern strings of pool points and differ from the correct answer
(the source filters them so). -/
theorem clozeCand_facts (ex : Example) (lookupPts pts : List GrammarPoint) (c : String)
    (h : c ∈ clozeCandidates ex lookupPts pts) :
    c ≠ "" ∧ c ≠ clozeCorrect ex lookupPts ∧ ∃ q ∈ pts, q.pattern = some c := by
  unfold clozeCandidates at h
  have h' := (pyDedup_mem _ c).mp h
  obtain ⟨hmem, hne⟩ := List.mem_filter.mp h'
  have hc : c ≠ "" := by simpa [bne_iff_ne] using hne
  have fromFull : c ∈ clozeFullCands ex lookupPts pts ∨
      c ∈ clozeSameLevelCands ex lookupPts pts → c ≠ clozeCorrect ex lookupPts ∧
      ∃ q ∈ pts, q.pattern = some c := by
    intro hor
    have main : ∀ q ∈ pts,
        (q.pattern.getD "" != "" && q.pattern.getD "" != clozeCorrect ex lookupPts) = true →
        q.pattern.getD "" = c → c ≠ clozeCorrect ex lookupPts ∧
          ∃ q' ∈ pts, q'.pattern = some c := by
      intro q hq hcond hqc
      rw [Bool.and_eq_true] at hcond
      refine ⟨by rw [← hqc]; simpa [bne_iff_ne] using hcond.2, q, hq, some_of_getD hqc hc⟩
    rcases hor with hfull | hsl
    · obtain ⟨q, hq, hqc⟩ := List.mem_map.mp hfull
      obtain ⟨hqpts, hcond⟩ := List.mem_filter.mp hq
      exact main q hqpts hcond hqc
    · obtain ⟨q, hq, hqc⟩ := List.mem_map.mp hsl
      obtain ⟨hq2, hcond⟩ := List.mem_filter.mp hq
      obtain ⟨hqpts, _⟩ := List.mem_filter.mp hq2
      exact main q hqpts hcond hqc
  by_cases hwid : (clozeSameLevelCands ex lookupPts pts).length < 3
  · rw [if_pos hwid] at hmem
    rcases List.mem_append.mp hmem with hsl | hfull
    · exact ⟨hc, fromFull (Or.inr hsl)⟩
    · exact ⟨hc, fromFull (Or.inl hfull)⟩
  · rw [if_neg hwid] at hmem
    exact ⟨hc, fromFull (Or.inr hmem)⟩

/-- Claim C3 (counterexample): the pattern builder's candidate list is *not*
filtered against the correct answer — with two points sharing the pattern
string `"ている"`, the correct answer itself is a distractor candidate. -/
theorem C3_cex :
    patternCorrect gpTeiru = "ている" ∧
    "ている" ∈ patternCandidates gpTeiru [gpTeiru, gpTeiru2] := by
  decide

/-- Claim C3 (amended): for every builder the candidate distractor set
contains only non-empty strings taken from records other than the focal
record; the additional exact-equality filter against the correct answer is
applied only by the translation and cloze builders — pattern and meaning
candidates may equal the correct answer (see the counterexample). -/
theorem C3_amended (p : GrammarPoint) (pool : List GrammarPoint) (lang : String)
    (ex : Example) (epool : List Example) (lookupPts pts : List GrammarPoint)
    (c : String) :
    (c ∈ patternCandidates p pool →
      c ≠ "" ∧ ∃ x ∈ pool, x.id ≠ p.id ∧ x.pattern = some c) ∧
    (c ∈ (meaningCandidates p pool lang).filter (fun s => s != "") →
      c ≠ "" ∧ ∃ x ∈ pool, x.id ≠ p.id ∧ c = pyOrO (meaningField x lang) x.title) ∧
    (c ∈ translationCandidates ex epool lang →
      c ≠ "" ∧ c ≠ translationCorrect ex lang ∧
        ∃ x ∈ epool, x.id ≠ ex.id ∧ c = exTrans x lang) ∧
    (c ∈ clozeCandidates ex lookupPts pts →
      c ≠ "" ∧ c ≠ clozeCorrect ex lookupPts ∧ ∃ q ∈ pts, q.pattern = some c) :=
  ⟨patternCand_facts p pool c, meaningCand_facts p pool lang c,
    translationCand_facts ex epool lang c, clozeCand_facts ex lookupPts pts c⟩

/-- Claim C3 (amended) witness: the translation-builder candidate facts at a
concrete pool and candidate. -/
theorem C3_amended_witness :
    "El gato está comiendo." ≠ "" ∧
    "El gato está comiendo." ≠ translationCorrect exW2 "es" ∧
    ∃ x ∈ [exW, exW2], x.id ≠ exW2.id ∧ "El gato está comiendo." = exTrans x "es" :=
  (C3_amended gpTeiru [gpTeiru] "es" exW2 [exW, exW2] [] [] "El gato está comiendo.").2.2.1
    (by decide)

/-- Transfer of dup-freeness along a sub-permutation. -/
theorem subperm_nodup {l1 l2 : List String} (h : List.Subperm l1 l2) (h2 : l2.Nodup) :
    l1.Nodup := by
  obtain ⟨l, hp, hsub⟩ := h
  exact (List.Perm.nodup_iff hp).mp (List.Nodup.sublist hsub h2)

/-- Claim C4 (counterexample): the source decides widening on the raw
same-level candidate list *before* deduplication.  Here only 1 *distinct*
non-empty same-level candidate exists (`"A"`, offered by three points), yet
the pool is not widened: the full-pool candidate `"B"` never becomes a
candidate. -/
theorem C4_cex :
    (pyDedup (clozeSameLevelCands exC4 ptsC4 ptsC4)).length = 1 ∧
    "B" ∈ clozeFullCands exC4 ptsC4 ptsC4 ∧
    "B" ∉ clozeCandidates exC4 ptsC4 ptsC4 := by
  decide

/-- Claim C4 (amended): the cloze builder widens to the full points pool
exactly when the same-level candidate list has fewer than 3 entries
*counting duplicates*; candidates are deduplicated (keeping first
occurrences) before sampling, and consequently the choices list of a cloze
question never offers the same string twice. -/
theorem C4_amended (ex : Example) (lookupPts pts : List GrammarPoint)
    (pick : List String → Nat → List String) (shuf : List String → List String)
    (hp : PickOK pick) (hs : ShufOK shuf) :
    ((clozeSameLevelCands ex lookupPts pts).length < 3 →
      ∀ c ∈ clozeFullCands ex lookupPts pts, c ∈ clozeCandidates ex lookupPts pts) ∧
    (¬ (clozeSameLevelCands ex lookupPts pts).length < 3 →
      ∀ c ∈ clozeCandidates ex lookupPts pts, c ∈ clozeSameLevelCands ex lookupPts pts) ∧
    (clozeCandidates ex lookupPts pts).Nodup ∧
    (_q_cloze ex lookupPts pts pick shuf).choices.Nodup := by
  have hfull_ne : ∀ c ∈ clozeFullCands ex lookupPts pts, c ≠ "" := by
    intro c hc hc0
    obtain ⟨q, hq, hqc⟩ := List.mem_map.mp hc
    obtain ⟨_, hcond⟩ := List.mem_filter.mp hq
    rw [Bool.and_eq_true] at hcond
    have := hcond.1
    rw [hqc, hc0] at this
    simp at this
  refine ⟨?_, ?_, ?_, ?_⟩
  · intro hlt c hc
    have hgoal : c ∈ pyDedup (List.filter (fun s => s != "")
        (clozeSameLevelCands ex lookupPts pts ++ clozeFullCands ex lookupPts pts)) := by
      refine (pyDedup_mem _ c).mpr (List.mem_filter.mpr ⟨List.mem_append_right _ hc, ?_⟩)
      simpa [bne_iff_ne] using hfull_ne c hc
    show c ∈ pyDedup (List.filter (fun s => s != "")
        (if (clozeSameLevelCands ex lookupPts pts).length < 3 then
          clozeSameLevelCands ex lookupPts pts ++ clozeFullCands ex lookupPts pts
        else clozeSameLevelCands ex lookupPts pts))
    rw [if_pos hlt]
    exact hgoal
  · intro hge c hc
    have hc' : c ∈ pyDedup (List.filter (fun s => s != "")
        (if (clozeSameLevelCands ex lookupPts pts).length < 3 then
          clozeSameLevelCands ex lookupPts pts ++ clozeFullCands ex lookupPts pts
        else clozeSameLevelCands ex lookupPts pts)) := hc
    rw [if_neg hge] at hc'
    exact (List.mem_filter.mp ((pyDedup_mem _ c).mp hc')).1
  · exact pyDedup_nodup _
  · have hcandN : (clozeCandidates ex lookupPts pts).Nodup := pyDedup_nodup _
    have hdsN : (_sample (clozeCandidates ex lookupPts pts) 3 pick).Nodup :=
      subperm_nodup (_sample_subperm _ 3 pick hp) hcandN
    have hnotin : clozeCorrect ex lookupPts ∉
        _sample (clozeCandidates ex lookupPts pts) 3 pick := by
      intro hmem
      have hsub := List.Subperm.subset (_sample_subperm (clozeCandidates ex lookupPts pts)
        3 pick hp)
      exact (clozeCand_facts ex lookupPts pts _ (hsub hmem)).2.1 rfl
    have hap : (_sample (clozeCandidates ex lookupPts pts) 3 pick ++
        [clozeCorrect ex lookupPts]).Nodup := by
      refine List.nodup_append.mpr ⟨hdsN, List.nodup_singleton _, ?_⟩
      intro a ha ha2
      rw [List.mem_singleton] at ha2
      exact hnotin (ha2 ▸ ha)
    exact (List.Perm.nodup_iff (hs _)).mpr hap

/-- Claim C4 (amended) witness: dedup-freeness at the concrete fixture pool
and a concrete admissible random outcome. -/
theorem C4_amended_witness :
    (clozeCandidates exC4 ptsC4 ptsC4).Nodup ∧
    (_q_cloze exC4 ptsC4 ptsC4 pick0 shuf0).choices.Nodup :=
  ⟨(C4_amended exC4 ptsC4 ptsC4 pick0 shuf0 pick0_ok shuf0_ok).2.2.1,
    (C4_amended exC4 ptsC4 ptsC4 pick0 shuf0 pick0_ok shuf0_ok).2.2.2⟩

/-- Claim C8 (counterexample): `random.sample` draws from distinct
*positions*, not distinct values.  With `items = ["a", "a", "b"]` and
`k = 2`, drawing positions 0 and 1 — an admissible outcome, realised by
`pick0` — returns `["a", "a"]`, which is not a list of distinct elements. -/
theorem C8_cex :
    _sample ["a", "a", "b"] 2 pick0 = ["a", "a"] ∧
    ¬ (["a", "a"] : List String).Nodup := by
  decide

/-- Claim C8 (amended): full `_sample` contract.  If `k ≤ 0` or the list is
empty the result is `[]`; if `k ≥ len(items)` the result is a permutation of
the entire input (same multiset, every original element exactly once); if
`0 < k < len(items)` the result has exactly `k` entries drawn without
replacement from the input — distinct positions, with values possibly
repeating when the input itself has duplicate values. -/
theorem C8_amended (seq : List String) (k : Int)
    (pick : List String → Nat → List String) (hp : PickOK pick) :
    (seq = [] ∨ k ≤ 0 → _sample seq k pick = []) ∧
    (0 < k → (seq.length : Int) ≤ k → List.Perm (_sample seq k pick) seq) ∧
    (0 < k → k < (seq.length : Int) →
      (_sample seq k pick).length = k.toNat ∧ List.Subperm (_sample seq k pick) seq) := by
  refine ⟨_sample_empty seq k pick, fun hk hge => _sample_perm seq k pick hp hk hge, ?_⟩
  intro hk hlt
  refine ⟨?_, _sample_subperm seq k pick hp⟩
  rw [_sample_length seq k pick hp hk]
  exact Nat.min_eq_left (by omega)

/-- Claim C8 (amended) witness: the permutation case at a concrete list and
an oversized `k`, under the concrete admissible sampling outcome `pick0`. -/
theorem C8_amended_witness :
    List.Perm (_sample ["a", "b", "c"] 5 pick0) ["a", "b", "c"] :=
  (C8_amended ["a", "b", "c"] 5 pick0 pick0_ok).2.1 (by decide) (by decide)

/-- Claim C6: the quiz generator signals the not-found condition exactly
when the loaded grammar-points pool is empty; for any non-empty pool it
returns an `ok` result — missing examples, translations or patterns can
only shrink the output, never raise. -/
theorem C6_notfound_iff (points : List GrammarPoint) (examplesLoaded : List Example)
    (n : Nat) (ty lang : String) (R : Rng) :
    (quizGen points examplesLoaded n ty lang R =
        Except.error "No hay puntos gramaticales para ese filtro." ↔ points = []) ∧
    (points ≠ [] → quizGen points examplesLoaded n ty lang R =
        Except.ok (quizReturn points examplesLoaded n ty lang R)) := by
  have hok : ∀ h : ¬ points.isEmpty = true, quizGen points examplesLoaded n ty lang R =
      Except.ok (quizReturn points examplesLoaded n ty lang R) := by
    intro h
    rw [quizGen, if_neg h]
  constructor
  · constructor
    · intro h
      by_contra hne
      rw [hok (by simpa [List.isEmpty_iff] using hne)] at h
      exact Except.noConfusion h
    · intro h
      subst h
      rfl
  · intro hne
    exact hok (by simpa [List.isEmpty_iff] using hne)

/-- Claim C6 witness: a concrete non-empty pool yields an `ok` result. -/
theorem C6_notfound_iff_witness :
    quizGen [gpTeiru] [] 1 "pattern" "es" R0 =
      Except.ok (quizReturn [gpTeiru] [] 1 "pattern" "es" R0) :=
  (C6_notfound_iff [gpTeiru] [] 1 "pattern" "es" R0).2 (by decide)

/-- Every `add_*` helper either reports failure leaving `questions`
untouched, or appends exactly one question. -/
theorem addCloze_shape (examples : List Example) (points : List GrammarPoint) (R : Rng)
    (t : Nat) (qs : List QuizQuestion) :
    addCloze examples points R t qs = (false, qs) ∨
    ∃ q, addCloze examples points R t qs = (true, qs ++ [q]) := by
  have hrw : addCloze examples points R t qs =
      match pyChoice (examples.filter
          (fun e => truthyO e.jp && (truthyO e.grammar_id || truthyO e.pattern)))
          (R.choiceF t) with
      | none => (false, qs)
      | some ex => (true, qs ++ [_q_cloze ex points points (R.pickF t) (R.shufF t)]) := rfl
  rw [hrw]
  cases pyChoice (examples.filter
      (fun e => truthyO e.jp && (truthyO e.grammar_id || truthyO e.pattern)))
      (R.choiceF t) with
  | none => exact Or.inl rfl
  | some ex => exact Or.inr ⟨_, rfl⟩

theorem addTranslation_shape (examples : List Example) (lang : String) (R : Rng)
    (t : Nat) (qs : List QuizQuestion) :
    addTranslation examples lang R t qs = (false, qs) ∨
    ∃ q, addTranslation examples lang R t qs = (true, qs ++ [q]) := by
  have hrw : addTranslation examples lang R t qs =
      match pyChoice (examples.filter
          (fun e => truthyO (if lang == "es" then e.es else e.en))) (R.choiceF t) with
      | none => (false, qs)
      | some ex => (true, qs ++ [_q_translation ex
          (examples.filter (fun e => truthyO (if lang == "es" then e.es else e.en)))
          lang (R.pickF t) (R.shufF t)]) := rfl
  rw [hrw]
  cases pyChoice (examples.filter
      (fun e => truthyO (if lang == "es" then e.es else e.en))) (R.choiceF t) with
  | none => exact Or.inl rfl
  | some ex => exact Or.inr ⟨_, rfl⟩

theorem addPattern_shape (points : List GrammarPoint) (R : Rng)
    (t : Nat) (qs : List QuizQuestion) :
    addPattern points R t qs = (false, qs) ∨
    ∃ q, addPattern points R t qs = (true, qs ++ [q]) := by
  unfold addPattern
  split
  · exact Or.inl rfl
  · exact Or.inr ⟨_, rfl⟩

theorem addMeaning_shape (points : List GrammarPoint) (lang : String) (R : Rng)
    (t : Nat) (qs : List QuizQuestion) :
    addMeaning points lang R t qs = (false, qs) ∨
    ∃ q, addMeaning points lang R t qs = (true, qs ++ [q]) := by
  unfold addMeaning
  split
  · exact Or.inl rfl
  · exact Or.inr ⟨_, rfl⟩

/-- `random.choice` on a non-empty list yields an element. -/
theorem pyChoice_of_ne {α : Type} (l : List α) (r : Nat) (h : l ≠ []) :
    ∃ a, pyChoice l r = some a := by
  unfold pyChoice
  have hlen : 0 < l.length := List.length_pos.mpr h
  have hlt : r % l.length < l.length := Nat.mod_lt _ hlen
  exact ⟨l.get ⟨_, hlt⟩, List.get?_eq_get hlt⟩

/-- With a non-empty points pool, `add_pattern()` always succeeds and
appends one question. -/
theorem addPattern_some (points : List GrammarPoint) (R : Rng) (t : Nat)
    (qs : List QuizQuestion) (h : points ≠ []) :
    ∃ q, addPattern points R t qs = (true, qs ++ [q]) := by
  obtain ⟨p, hp⟩ := pyChoice_of_ne points (R.choiceF t) h
  refine ⟨_q_pattern p points (R.pickF t) (R.shufF t), ?_⟩
  unfold addPattern
  rw [hp]

/-- One mix pass grows `questions` by at least one entry and reports
`made = true`, provided the points pool is non-empty and the target count
is not yet reached. -/
theorem mixPass_step (points : List GrammarPoint) (examples : List Example) (lang : String)
    (n : Nat) (R : Rng) (t : Nat) (qs : List QuizQuestion)
    (hpts : points ≠ []) (hlen : qs.length < n) :
    qs.length + 1 ≤ (mixPass points examples lang n R t qs).2.2.length ∧
    (mixPass points examples lang n R t qs).1 = true := by
  unfold mixPass
  rw [if_neg (by omega)]
  obtain h1 | ⟨q1, h1⟩ := addCloze_shape examples points R t qs <;> rw [h1] <;>
    simp only
  · rw [if_neg (by omega)]
    obtain ⟨q2, h2⟩ := addPattern_some points R (t + 1) qs hpts
    rw [h2]
    simp only [Bool.false_or]
    by_cases hc2 : (qs ++ [q2]).length ≥ n
    · rw [if_pos hc2]
      simp [List.length_append]
    · rw [if_neg hc2]
      obtain h3 | ⟨q3, h3⟩ := addMeaning_shape points lang R (t + 2) (qs ++ [q2]) <;>
        rw [h3] <;> simp only [Bool.true_or]
      · by_cases hc3 : (qs ++ [q2]).length ≥ n
        · rw [if_pos hc3]
          simp [List.length_append]
        · rw [if_neg hc3]
          obtain h4 | ⟨q4, h4⟩ :=
            addTranslation_shape examples lang R (t + 3) (qs ++ [q2]) <;> rw [h4] <;>
            simp [List.length_append]
      · by_cases hc3 : (qs ++ [q2] ++ [q3]).length ≥ n
        · rw [if_pos hc3]
          simp [List.length_append]
        · rw [if_neg hc3]
          obtain h4 | ⟨q4, h4⟩ :=
            addTranslation_shape examples lang R (t + 3) (qs ++ [q2] ++ [q3]) <;>
            rw [h4] <;> simp [List.length_append]
  · by_cases hc1 : (qs ++ [q1]).length ≥ n
    · rw [if_pos hc1]
      simp [List.length_append]
    · rw [if_neg hc1]
      obtain h2 | ⟨q2, h2⟩ := addPattern_shape points R (t + 1) (qs ++ [q1]) <;>
        rw [h2] <;> simp only [Bool.true_or, Bool.or_false, Bool.or_true]
      · by_cases hc2 : (qs ++ [q1]).length ≥ n
        · rw [if_pos hc2]
          simp [List.length_append]
        · rw [if_neg hc2]
          obtain h3 | ⟨q3, h3⟩ := addMeaning_shape points lang R (t + 2) (qs ++ [q1]) <;>
            rw [h3] <;> simp only [Bool.true_or, Bool.or_false, Bool.or_true]
          · by_cases hc3 : (qs ++ [q1]).length ≥ n
            · rw [if_pos hc3]
              simp [List.length_append]
            · rw [if_neg hc3]
              obtain h4 | ⟨q4, h4⟩ :=
                addTranslation_shape examples lang R (t + 3) (qs ++ [q1]) <;> rw [h4] <;>
                simp [List.length_append]
          · by_cases hc3 : (qs ++ [q1] ++ [q3]).length ≥ n
            · rw [if_pos hc3]
              simp [List.length_append]
            · rw [if_neg hc3]
              obtain h4 | ⟨q4, h4⟩ :=
                addTranslation_shape examples lang R (t + 3) (qs ++ [q1] ++ [q3]) <;>
                rw [h4] <;> simp [List.length_append]
      · by_cases hc2 : (qs ++ [q1] ++ [q2]).length ≥ n
        · rw [if_pos hc2]
          simp [List.length_append]
        · rw [if_neg hc2]
          obtain h3 | ⟨q3, h3⟩ :=
            addMeaning_shape points lang R (t + 2) (qs ++ [q1] ++ [q2]) <;>
            rw [h3] <;> simp only [Bool.true_or, Bool.or_false, Bool.or_true]
          · by_cases hc3 : (qs ++ [q1] ++ [q2]).length ≥ n
            · rw [if_pos hc3]
              simp [List.length_append]
            · rw [if_neg hc3]
              obtain h4 | ⟨q4, h4⟩ :=
                addTranslation_shape examples lang R (t + 3) (qs ++ [q1] ++ [q2]) <;>
                rw [h4] <;> simp [List.length_append]
          · by_cases hc3 : (qs ++ [q1] ++ [q2] ++ [q3]).length ≥ n
            · rw [if_pos hc3]
              simp [List.length_append]
            · rw [if_neg hc3]
              obtain h4 | ⟨q4, h4⟩ :=
                addTranslation_shape examples lang R (t + 3) (qs ++ [q1] ++ [q2] ++ [q3]) <;>
                rw [h4] <;> simp [List.length_append]

/-- With a non-empty points pool the mix loop body never breaks: it always
continues with at least one more accumulated question. -/
theorem mixStep_cont (points : List GrammarPoint) (examples : List Example) (lang : String)
    (n : Nat) (R : Rng) (t : Nat) (qs : List QuizQuestion)
    (hpts : points ≠ []) (hlen : qs.length < n) :
    ∃ t' qs', mixStep points examples lang n R t qs = MixStepRes.cont t' qs' ∧
      qs.length + 1 ≤ qs'.length := by
  obtain ⟨hgrow, hmade⟩ := mixPass_step points examples lang n R t qs hpts hlen
  refine ⟨(mixPass points examples lang n R t qs).2.1,
    (mixPass points examples lang n R t qs).2.2, ?_, hgrow⟩
  simp only [mixStep, hmade, if_true]

/-- Once the target count is reached, the mix loop returns immediately for
any fuel. -/
theorem mixLoop_done (points : List GrammarPoint) (examples : List Example)
    (lang : String) (n : Nat) (R : Rng) (f t : Nat) (qs : List QuizQuestion)
    (hq : qs.length ≥ n) :
    mixLoop points examples lang n R f t qs = (t, qs) := by
  cases f with
  | zero => rfl
  | succ f' =>
    unfold mixLoop
    rw [if_pos hq]

/-- Fuel-independence of the mix loop: with a non-empty points pool, any
two fuel budgets large enough to cover the remaining question count compute
the same result — i.e. the unbounded Python `while` loop terminates and the
fuelled embedding computes its value. -/
theorem mixLoop_stable (points : List GrammarPoint) (examples : List Example)
    (lang : String) (n : Nat) (R : Rng) (hpts : points ≠ []) :
    ∀ f g t qs, n ≤ f + qs.length → n ≤ g + qs.length →
    mixLoop points examples lang n R f t qs = mixLoop points examples lang n R g t qs := by
  intro f
  induction f with
  | zero =>
    intro g t qs hf hg
    have hq : qs.length ≥ n := by omega
    rw [mixLoop_done points examples lang n R 0 t qs hq,
      mixLoop_done points examples lang n R g t qs hq]
  | succ f' ih =>
    intro g t qs hf hg
    by_cases hq : qs.length ≥ n
    · rw [mixLoop_done points examples lang n R (f' + 1) t qs hq,
        mixLoop_done points examples lang n R g t qs hq]
    · have hlt : qs.length < n := by omega
      obtain ⟨g', rfl⟩ : ∃ g', g = g' + 1 := ⟨g - 1, by omega⟩
      obtain ⟨t', qs', hstep, hgrow⟩ :=
        mixStep_cont points examples lang n R t qs hpts hlt
      show mixLoop points examples lang n R (f' + 1) t qs =
        mixLoop points examples lang n R (g' + 1) t qs
      unfold mixLoop
      rw [if_neg hq, hstep, if_neg hq]
      show mixLoop points examples lang n R f' t' qs' =
        mixLoop points examples lang n R g' t' qs'
      exact ih g' t' qs' (by omega) (by omega)

/-- Claim C7: every invocation of the quiz assembler terminates and returns
at most `n` questions.  The single-type loop is bounded by the literal
200-attempt ceiling (structural in `typLoop`); the mix loop has no explicit
ceiling in the source but terminates because, with the non-empty points
pool guaranteed by the not-found guard, every pass appends at least one
question — formalised as fuel-independence of `mixLoop` beyond `n` steps. -/
theorem C7_terminates (points : List GrammarPoint) (examplesLoaded : List Example)
    (n : Nat) (ty lang : String) (R : Rng) (f : Nat)
    (hpts : points ≠ []) (hf : n ≤ f) :
    (quizReturn points examplesLoaded n ty lang R).length ≤ n ∧
    mixLoop points examplesLoaded lang n R f 0 [] =
      mixLoop points examplesLoaded lang n R n 0 [] := by
  constructor
  · unfold quizReturn
    rw [List.length_take]
    exact Nat.min_le_left _ _
  · exact mixLoop_stable points examplesLoaded lang n R hpts f n 0 []
      (by simpa using hf) (by simp)

/-- Claim C7 witness: termination and the size bound at a concrete pool,
request count 1, and surplus fuel 3. -/
theorem C7_terminates_witness :
    (quizReturn [gpTeiru] [] 1 "mix" "es" R0).length ≤ 1 ∧
    mixLoop [gpTeiru] [] "es" 1 R0 3 0 [] = mixLoop [gpTeiru] [] "es" 1 R0 1 0 [] :=
  C7_terminates [gpTeiru] [] 1 "mix" "es" R0 3 (by decide) (by decide)

theorem isPrefixOf_self_append (l x : List Char) : l.isPrefixOf (l ++ x) = true := by
  induction l with
  | nil => simp [List.isPrefixOf]
  | cons a as ih => simp [List.isPrefixOf, ih]

theorem prefix_head {a b : Char} {as bs : List Char}
    (h : (a :: as).isPrefixOf (b :: bs) = true) : a = b ∧ as.isPrefixOf bs = true := by
  simpa [List.isPrefixOf] using h

/-- The fuel argument of `subAllF` is irrelevant once it covers the text
length: the embedding computes the replacement the source performs. -/
theorem subAllF_fuel (pat repl : List Char) :
    ∀ f g t, t.length ≤ f → t.length ≤ g →
      subAllF pat repl f t = subAllF pat repl g t := by
  intro f
  induction f with
  | zero =>
    intro g t hf _
    have ht : t = [] := List.length_eq_zero.mp (Nat.le_zero.mp hf)
    subst ht
    cases g with
    | zero => rfl
    | succ g' => rfl
  | succ f' ih =>
    intro g t hf hg
    cases t with
    | nil =>
      cases g with
      | zero => rfl
      | succ g' => rfl
    | cons c rest =>
      obtain ⟨g', rfl⟩ : ∃ g', g = g' + 1 := by
        refine ⟨g - 1, ?_⟩
        have : 1 ≤ g := le_trans (by simp) hg
        omega
      have hrf : rest.length ≤ f' := by
        simp only [List.length_cons] at hf
        omega
      have hrg : rest.length ≤ g' := by
        simp only [List.length_cons] at hg
        omega
      have hd : (List.drop (pat.length - 1) rest).length ≤ rest.length :=
        le_of_eq (List.length_drop _ _) |>.trans (Nat.sub_le _ _)
      simp only [subAllF]
      by_cases hcond : pat ≠ [] ∧ pat.isPrefixOf (c :: rest) = true
      · rw [if_pos hcond, if_pos hcond, ih g' _ (le_trans hd hrf) (le_trans hd hrg)]
      · rw [if_neg hcond, if_neg hcond, ih g' rest hrf hrg]

/-- Without any literal occurrence the replacement is the identity. -/
theorem subAllF_id (pat repl : List Char) :
    ∀ f t, occursIn pat t = false → subAllF pat repl f t = t := by
  intro f
  induction f with
  | zero => intro t _; rfl
  | succ f' ih =>
    intro t h
    cases t with
    | nil => rfl
    | cons c rest =>
      rw [occursIn] at h
      simp only [Bool.or_eq_false_iff] at h
      simp only [subAllF]
      rw [if_neg ?_, ih rest h.2]
      intro hcond
      rw [h.1] at hcond
      exact Bool.false_ne_true hcond.2

/-- With a literal occurrence and an underscore-free pattern, the
replacement changes the text. -/
theorem subAllF_changed (pat : List Char) (hpat : pat ≠ []) (hnu : '_' ∉ pat) :
    ∀ f t, t.length ≤ f → occursIn pat t = true → subAllF pat blankL f t ≠ t := by
  intro f
  induction f with
  | zero =>
    intro t hf h
    have ht : t = [] := List.length_eq_zero.mp (Nat.le_zero.mp hf)
    subst ht
    rw [occursIn] at h
    exact absurd (List.isEmpty_iff.mp h) hpat
  | succ f' ih =>
    intro t hf h
    cases t with
    | nil =>
      rw [occursIn] at h
      exact absurd (List.isEmpty_iff.mp h) hpat
    | cons c rest =>
      simp only [subAllF]
      by_cases hcond : pat ≠ [] ∧ pat.isPrefixOf (c :: rest) = true
      · rw [if_pos hcond]
        obtain ⟨p0, ps, hps⟩ : ∃ p0 ps, pat = p0 :: ps := by
          cases pat with
          | nil => exact absurd rfl hpat
          | cons a b => exact ⟨a, b, rfl⟩
        have hp0c : p0 = c := by
          have := hcond.2
          rw [hps] at this
          exact (prefix_head this).1
        have hp0 : p0 ≠ '_' := by
          intro hh
          apply hnu
          rw [hps, ← hh]
          exact List.mem_cons_self _ _
        intro heq
        have hhd : '_' = c := by
          have := congrArg List.head? heq
          simpa [blankL] using this
        exact hp0 (hp0c.trans hhd.symm)
      · rw [if_neg hcond]
        intro heq
        have hpre : pat.isPrefixOf (c :: rest) = false := by
          cases hbb : pat.isPrefixOf (c :: rest) with
          | false => rfl
          | true => exact absurd ⟨hpat, hbb⟩ hcond
        rw [occursIn, hpre, Bool.false_or] at h
        have hrf : rest.length ≤ f' := by
          simp only [List.length_cons] at hf
          omega
        refine ih rest hrf h ?_
        injection heq

/-- An underscore-free prefix of the replaced text is a prefix of the
original text (the blank marker interrupts everything else). -/
theorem subAllF_prefix_reflect (pat : List Char) :
    ∀ (f : Nat) (t q : List Char), (∀ ch ∈ q, ch ≠ '_') →
      q.isPrefixOf (subAllF pat blankL f t) = true → q.isPrefixOf t = true := by
  intro f
  induction f with
  | zero => intro t q _ h; exact h
  | succ f' ih =>
    intro t q hq h
    cases t with
    | nil => exact h
    | cons c rest =>
      simp only [subAllF] at h
      by_cases hcond : pat ≠ [] ∧ pat.isPrefixOf (c :: rest) = true
      · rw [if_pos hcond] at h
        cases q with
        | nil => simp [List.isPrefixOf]
        | cons q0 q' =>
          have hq0 : q0 = '_' := (prefix_head h).1
          exact absurd hq0 (hq q0 (List.mem_cons_self _ _))
      · rw [if_neg hcond] at h
        cases q with
        | nil => simp [List.isPrefixOf]
        | cons q0 q' =>
          obtain ⟨hq0, hq'⟩ := prefix_head h
          have hrec := ih rest q' (fun ch hch => hq ch (List.mem_cons_of_mem _ hch)) hq'
          simp [List.isPrefixOf, hq0, hrec]

/-- After replacement with the blank marker, an underscore-free pattern no
longer occurs anywhere in the text. -/
theorem subAllF_no_occurrence (pat : List Char) (hpat : pat ≠ []) (hnu : '_' ∉ pat) :
    ∀ f t, t.length ≤ f → occursIn pat (subAllF pat blankL f t) = false := by
  intro f
  induction f with
  | zero =>
    intro t hf
    have ht : t = [] := List.length_eq_zero.mp (Nat.le_zero.mp hf)
    subst ht
    show occursIn pat [] = false
    rw [occursIn]
    cases pat with
    | nil => exact absurd rfl hpat
    | cons a as => rfl
  | succ f' ih =>
    intro t hf
    cases t with
    | nil =>
      show occursIn pat [] = false
      rw [occursIn]
      cases pat with
      | nil => exact absurd rfl hpat
      | cons a as => rfl
    | cons c rest =>
      simp only [subAllF]
      by_cases hcond : pat ≠ [] ∧ pat.isPrefixOf (c :: rest) = true
      · rw [if_pos hcond]
        obtain ⟨p0, ps, hps⟩ : ∃ p0 ps, pat = p0 :: ps := by
          cases pat with
          | nil => exact absurd rfl hpat
          | cons a b => exact ⟨a, b, rfl⟩
        have hp0 : p0 ≠ '_' := by
          intro hh
          apply hnu
          rw [hps, ← hh]
          exact List.mem_cons_self _ _
        have peel : ∀ x, occursIn pat x = false → occursIn pat ('_' :: x) = false := by
          intro x hx
          rw [occursIn, hx, Bool.or_false, hps]
          simp only [List.isPrefixOf, Bool.and_eq_false_iff]
          exact Or.inl (by simpa using hp0)
        have hd : (List.drop (pat.length - 1) rest).length ≤ f' := by
          have h1 : (List.drop (pat.length - 1) rest).length ≤ rest.length :=
            le_of_eq (List.length_drop _ _) |>.trans (Nat.sub_le _ _)
          have h2 : rest.length ≤ f' := by
            simp only [List.length_cons] at hf
            omega
          omega
        have hrec := ih _ hd
        show occursIn pat
          ('_' :: '_' :: '_' :: '_' ::
            subAllF pat blankL f' (List.drop (pat.length - 1) rest)) = false
        exact peel _ (peel _ (peel _ (peel _ hrec)))
      · rw [if_neg hcond]
        rw [occursIn]
        have hrf : rest.length ≤ f' := by
          simp only [List.length_cons] at hf
          omega
        rw [ih rest hrf, Bool.or_false]
        cases hbb : pat.isPrefixOf (c :: subAllF pat blankL f' rest) with
        | false => rfl
        | true =>
          have hx : pat.isPrefixOf (subAllF pat blankL (f' + 1) (c :: rest)) = true := by
            simp only [subAllF]
            rw [if_neg hcond]
            exact hbb
          have hrefl := subAllF_prefix_reflect pat (f' + 1) (c :: rest) pat
            (fun ch hch hh => hnu (hh ▸ hch)) hx
          exact absurd ⟨hpat, hrefl⟩ hcond

/-- After a successful replacement the blank marker occurs in the text. -/
theorem subAllF_blank (pat : List Char) (hpat : pat ≠ []) :
    ∀ f t, t.length ≤ f → occursIn pat t = true →
      occursIn blankL (subAllF pat blankL f t) = true := by
  intro f
  induction f with
  | zero =>
    intro t hf h
    have ht : t = [] := List.length_eq_zero.mp (Nat.le_zero.mp hf)
    subst ht
    rw [occursIn] at h
    exact absurd (List.isEmpty_iff.mp h) hpat
  | succ f' ih =>
    intro t hf h
    cases t with
    | nil =>
      rw [occursIn] at h
      exact absurd (List.isEmpty_iff.mp h) hpat
    | cons c rest =>
      simp only [subAllF]
      by_cases hcond : pat ≠ [] ∧ pat.isPrefixOf (c :: rest) = true
      · rw [if_pos hcond]
        show occursIn blankL
          ('_' :: '_' :: '_' :: '_' ::
            subAllF pat blankL f' (List.drop (pat.length - 1) rest)) = true
        rw [occursIn]
        have hpref : blankL.isPrefixOf
            ('_' :: '_' :: '_' :: '_' ::
              subAllF pat blankL f' (List.drop (pat.length - 1) rest)) = true :=
          isPrefixOf_self_append blankL _
        rw [hpref, Bool.true_or]
      · rw [if_neg hcond]
        have hpre : pat.isPrefixOf (c :: rest) = false := by
          cases hbb : pat.isPrefixOf (c :: rest) with
          | false => rfl
          | true => exact absurd ⟨hpat, hbb⟩ hcond
        rw [occursIn, hpre, Bool.false_or] at h
        have hrf : rest.length ≤ f' := by
          simp only [List.length_cons] at hf
          omega
        rw [occursIn, ih rest hrf h, Bool.or_true]

/-- A string is empty iff its character list is. -/
theorem str_data_nil {s : String} (h : s.data = []) : s = "" := by
  cases s
  simp_all

/-- When the stripped target is non-empty, underscore-free and occurs
literally in the (non-empty) sentence, `_hide_pattern` returns the sentence
with every occurrence replaced by the blank marker. -/
theorem hide_pattern_replaces (t p : String) (ht : t ≠ "")
    (hp : pyStrip p ≠ "") (hnu : '_' ∉ (pyStrip p).data)
    (hocc : occursIn (pyStrip p).data t.data = true) :
    _hide_pattern (some t) (some p) = ⟨subAll (pyStrip p).data blankL t.data⟩ := by
  have hpne : p ≠ "" := by
    intro h
    exact hp (by rw [h]; exact pyStrip_empty)
  have hpd : (pyStrip p).data ≠ [] := fun h => hp (str_data_nil h)
  have hchanged : subAll (pyStrip p).data blankL t.data ≠ t.data := by
    rw [subAll, if_neg hpd]
    exact subAllF_changed (pyStrip p).data hpd hnu t.data.length t.data
      (Nat.le_refl _) hocc
  show (if t == "" then "" else
    (match (if p == "" then none else
      (if (⟨subAll (pyStrip p).data blankL t.data⟩ : String) != t then
        some (⟨subAll (pyStrip p).data blankL t.data⟩ : String) else none)) with
      | some m => m
      | none => (⟨fbMask t.data⟩ : String))) = ⟨subAll (pyStrip p).data blankL t.data⟩
  rw [if_neg (by simpa using ht), if_neg (by simpa using hpne),
    if_pos (show ((⟨subAll (pyStrip p).data blankL t.data⟩ : String) != t) = true from
      bne_iff_ne.mpr (fun heq => hchanged (congrArg String.data heq)))]

/-- When the stripped target is non-empty but does not occur in the
sentence, `_hide_pattern` falls back to the heuristic Japanese-run mask. -/
theorem hide_pattern_fallback (t p : String) (ht : t ≠ "") (hp : pyStrip p ≠ "")
    (hocc : occursIn (pyStrip p).data t.data = false) :
    _hide_pattern (some t) (some p) = ⟨fbMask t.data⟩ := by
  have hpne : p ≠ "" := by
    intro h
    exact hp (by rw [h]; exact pyStrip_empty)
  have hpd : (pyStrip p).data ≠ [] := fun h => hp (str_data_nil h)
  have hid : subAll (pyStrip p).data blankL t.data = t.data := by
    rw [subAll, if_neg hpd]
    exact subAllF_id (pyStrip p).data blankL t.data.length t.data hocc
  have hsame : (⟨subAll (pyStrip p).data blankL t.data⟩ : String) = t := by
    rw [hid]
  show (if t == "" then "" else
    (match (if p == "" then none else
      (if (⟨subAll (pyStrip p).data blankL t.data⟩ : String) != t then
        some (⟨subAll (pyStrip p).data blankL t.data⟩ : String) else none)) with
      | some m => m
      | none => (⟨fbMask t.data⟩ : String))) = ⟨fbMask t.data⟩
  rw [if_neg (by simpa using ht), if_neg (by simpa using hpne), hsame,
    if_neg (by simp)]

/-- Without a target pattern the heuristic fallback masks the sentence. -/
theorem hide_pattern_none (t : String) (ht : t ≠ "") :
    _hide_pattern (some t) none = ⟨fbMask t.data⟩ := by
  show (if t == "" then "" else (⟨fbMask t.data⟩ : String)) = ⟨fbMask t.data⟩
  rw [if_neg (by simpa using ht)]

/-- An empty target pattern (falsy in Python) also takes the fallback. -/
theorem hide_pattern_empty_target (t : String) (ht : t ≠ "") :
    _hide_pattern (some t) (some "") = ⟨fbMask t.data⟩ := by
  show (if t == "" then "" else (⟨fbMask t.data⟩ : String)) = ⟨fbMask t.data⟩
  rw [if_neg (by simpa using ht)]

/-- Python `some_str or y` returns the string when it is non-empty. -/
theorem pyOrO_some_ne {s : String} (y : String) (h : s ≠ "") : pyOrO (some s) y = s := by
  simp only [pyOrO]
  rw [if_neg (by simpa using h)]

/-- Claim C2 (counterexample): `re.sub` without `count` replaces *every*
occurrence, not only the first: masking `"abab"` with target `"ab"` yields
`"________"`, not the first-occurrence-only `"____ab"`. -/
theorem C2_cex :
    _hide_pattern (some "abab") (some "ab") = "________" ∧
    _hide_pattern (some "abab") (some "ab") ≠ "____ab" := by
  decide

/-- Claim C2 (amended): for a non-empty sentence and a target whose
stripped form is non-empty, underscore-free and occurs in the sentence, the
masking utility replaces **every** (non-overlapping, leftmost-first)
occurrence of the target with the blank token: after masking the target no
longer occurs anywhere in the sentence, and the blank token does occur. -/
theorem C2_amended (t target : String) (ht : t ≠ "") (hp : pyStrip target ≠ "")
    (hnu : '_' ∉ (pyStrip target).data)
    (hocc : occursIn (pyStrip target).data t.data = true) :
    occursIn blankL (_hide_pattern (some t) (some target)).data = true ∧
    occursIn (pyStrip target).data (_hide_pattern (some t) (some target)).data = false := by
  have heq := hide_pattern_replaces t target ht hp hnu hocc
  have hpd : (pyStrip target).data ≠ [] := fun h => hp (str_data_nil h)
  constructor
  · rw [heq]
    show occursIn blankL (subAll (pyStrip target).data blankL t.data) = true
    rw [subAll, if_neg hpd]
    exact subAllF_blank _ hpd t.data.length t.data (Nat.le_refl _) hocc
  · rw [heq]
    show occursIn (pyStrip target).data (subAll (pyStrip target).data blankL t.data) = false
    rw [subAll, if_neg hpd]
    exact subAllF_no_occurrence _ hpd hnu t.data.length t.data (Nat.le_refl _)

/-- Claim C2 (amended) witness at the spec's own example sentence. -/
theorem C2_amended_witness :
    occursIn blankL (_hide_pattern (some "私は猫が好きです。") (some "好き")).data = true ∧
    occursIn (pyStrip "好き").data
      (_hide_pattern (some "私は猫が好きです。") (some "好き")).data = false :=
  C2_amended "私は猫が好きです。" "好き" (by decide) (by decide) (by decide) (by decide)

/-- Claim C9: the masking utility is a total function — it returns a string
for every sentence and every target, including `None`, empty and
whitespace-only targets — and a target is matched *literally*: for every
target string (pattern-language metacharacters included), the stripped
target is looked up as a plain substring, every literal occurrence is
replaced when one exists, and otherwise the heuristic fallback runs. -/
theorem C9_literal_total (t p : String) :
    _hide_pattern none (some p) = "" ∧
    _hide_pattern (some "") (some p) = "" ∧
    (t ≠ "" → _hide_pattern (some t) none = ⟨fbMask t.data⟩) ∧
    (t ≠ "" → _hide_pattern (some t) (some "") = ⟨fbMask t.data⟩) ∧
    (t ≠ "" → pyStrip p ≠ "" → '_' ∉ (pyStrip p).data →
      (occursIn (pyStrip p).data t.data = true →
        _hide_pattern (some t) (some p) = ⟨subAll (pyStrip p).data blankL t.data⟩) ∧
      (occursIn (pyStrip p).data t.data = false →
        _hide_pattern (some t) (some p) = ⟨fbMask t.data⟩)) := by
  refine ⟨rfl, rfl, hide_pattern_none t, hide_pattern_empty_target t, ?_⟩
  intro ht hp hnu
  exact ⟨fun hocc => hide_pattern_replaces t p ht hp hnu hocc,
    fun hocc => hide_pattern_fallback t p ht hp hocc⟩

/-- Claim C9 witness: a target made of regex metacharacters (`"(a)+"`)
is matched literally and replaced. -/
theorem C9_literal_total_witness :
    _hide_pattern (some "x(a)+y(a)+") (some "(a)+") =
      ⟨subAll (pyStrip "(a)+").data blankL "x(a)+y(a)+".data⟩ :=
  ((C9_literal_total "x(a)+y(a)+" "(a)+").2.2.2.2 (by decide) (by decide)
    (by decide)).1 (by decide)

/-- Claim C5 (counterexample): a cloze question whose sentence contains the
blank token *and* still contains the correct answer verbatim, returned like
any other question (nothing in `QuizQuestion` flags the situation).  With
no grammar link the mask falls back to blanking the first Japanese run
(`"ここ"`), while the correct answer comes from the example's own pattern
copy (`"です"`), which survives in the sentence. -/
theorem C5_cex :
    (_q_cloze exC5 [] [] pick0 shuf0).type = "cloze" ∧
    (_q_cloze exC5 [] [] pick0 shuf0).jp = some "____、です" ∧
    clozeCorrect exC5 [] = "です" ∧
    occursIn (clozeCorrect exC5 []).data "____、です".data = true ∧
    occursIn blankL "____、です".data = true := by
  decide

/-- Claim C5 (amended): *when the linked GrammarPoint's stripped pattern is
non-empty, underscore-free and occurs verbatim in the example sentence*,
the returned cloze sentence contains the blank token and does not contain
the correct answer; otherwise (no link, pattern not found in the sentence,
or empty pattern) the mask falls back to blanking the first Japanese
script run and the sentence may retain the correct answer or lack the
blank, with no flag of any kind — see the counterexample. -/
theorem C5_amended (ex : Example) (lookupPts pts : List GrammarPoint)
    (pick : List String → Nat → List String) (shuf : List String → List String)
    (pt j : String)
    (hlink : clozeLinkedPattern ex lookupPts = some pt)
    (hpt : pyStrip pt ≠ "") (hnu : '_' ∉ (pyStrip pt).data)
    (hjp : ex.jp = some j) (hj : j ≠ "")
    (hocc : occursIn (pyStrip pt).data j.data = true) :
    (_q_cloze ex lookupPts pts pick shuf).jp =
      some ⟨subAll (pyStrip pt).data blankL j.data⟩ ∧
    occursIn blankL ((_q_cloze ex lookupPts pts pick shuf).jp.getD "").data = true ∧
    occursIn (clozeCorrect ex lookupPts).data
      ((_q_cloze ex lookupPts pts pick shuf).jp.getD "").data = false := by
  have hpd : (pyStrip pt).data ≠ [] := fun h => hpt (str_data_nil h)
  have hptne : pt ≠ "" := by
    intro h
    exact hpt (by rw [h]; exact pyStrip_empty)
  have hjp' : (_q_cloze ex lookupPts pts pick shuf).jp =
      some (_hide_pattern (some (ex.jp.getD "")) (clozeLinkedPattern ex lookupPts)) := rfl
  have hgd : ex.jp.getD "" = j := by rw [hjp]; rfl
  have hmask : _hide_pattern (some (ex.jp.getD "")) (clozeLinkedPattern ex lookupPts) =
      ⟨subAll (pyStrip pt).data blankL j.data⟩ := by
    rw [hgd, hlink]
    exact hide_pattern_replaces j pt hj hpt hnu hocc
  have hcorrect : clozeCorrect ex lookupPts = pyStrip pt := by
    unfold clozeCorrect
    rw [hlink, pyOrO_some_ne _ hptne]
  refine ⟨?_, ?_, ?_⟩
  · rw [hjp', hmask]
  · rw [hjp', hmask]
    show occursIn blankL (subAll (pyStrip pt).data blankL j.data) = true
    rw [subAll, if_neg hpd]
    exact subAllF_blank _ hpd j.data.length j.data (Nat.le_refl _) hocc
  · rw [hjp', hmask, hcorrect]
    show occursIn (pyStrip pt).data (subAll (pyStrip pt).data blankL j.data) = false
    rw [subAll, if_neg hpd]
    exact subAllF_no_occurrence _ hpd hnu j.data.length j.data (Nat.le_refl _)

/-- Claim C5 (amended) witness: at the concrete linked example the cloze
sentence is the fully masked sentence. -/
theorem C5_amended_witness :
    (_q_cloze exW5 [gpW5] [gpW5] pick0 shuf0).jp =
      some ⟨subAll (pyStrip "です").data blankL "ここです".data⟩ ∧
    occursIn blankL ((_q_cloze exW5 [gpW5] [gpW5] pick0 shuf0).jp.getD "").data = true ∧
    occursIn (clozeCorrect exW5 [gpW5]).data
      ((_q_cloze exW5 [gpW5] [gpW5] pick0 shuf0).jp.getD "").data = false :=
  C5_amended exW5 [gpW5] [gpW5] pick0 shuf0 "です" "ここです" (by decide) (by decide)
    (by decide) (by decide) (by decide) (by decide)
